import Mathlib

/-!
Shallow embedding of the variance-aware-MIS BDPT integrator
(src/src/integrators/bdpt.cpp) and proofs about it.

Conventions of the embedding:
* `Float` is modelled by `ℚ` (exact arithmetic); a spectrum is modelled by a
  single `ℚ` channel, `Spectrum::IsBlack()` becomes `= 0`.
* Scene, camera, light, BSDF and rectifier calls are external collaborators
  (their code lives in headers that are not part of the excerpt); their return
  values enter the model as explicit oracle parameters.
* Subpath vertex arrays are total functions `ℕ → Vertex` (C++ pointers carry
  no length); mutation is `Function.update`.
-/

namespace pbrt

/-- The `BDPTIntegrator::MisStrategy` enum: balance, power or uniform MIS
heuristic. -/
inductive MisStrategy where
  | balance
  | power
  | uniform
deriving DecidableEq, Repr

/-- The `BDPTIntegrator::MisModification` enum selecting the rectifier
factor scheme. -/
inductive MisModification where
  | modNone
  | reciprocalVariance
  | momentOverVariance
deriving DecidableEq, Repr

/-- The `TransportMode` enum: radiance transport (camera subpaths) or
importance transport (light subpaths). -/
inductive TransportMode where
  | Radiance
  | Importance
deriving DecidableEq, Repr

/-- Kind tag of a path vertex (the `VertexType` of bdpt.h). -/
inductive VertexKind where
  | camera
  | light
  | surface
  | medium
deriving DecidableEq, Repr, Inhabited

/-- A path vertex, keeping the fields of bdpt.h's `Vertex` that the
integrator file reads or writes: forward/reverse area densities, the delta
flag, the throughput and the vertex kind.  `isDeltaLight` records the value
of the external predicate `Vertex::IsDeltaLight()`. -/
structure Vertex where
  pdfFwd : ℚ := 0
  pdfRev : ℚ := 0
  delta : Bool := false
  vkind : VertexKind := VertexKind.surface
  isDeltaLight : Bool := false
  beta : ℚ := 0
deriving DecidableEq, Repr, Inhabited

/-- The `IsOnSurface` predicate of a vertex (true for surface vertices). -/
def Vertex.IsOnSurface (v : Vertex) : Bool := v.vkind = VertexKind.surface

/-- The helper `remap0` of `MISWeight`: substitute 1 for a zero density. -/
def remap0 (f : ℚ) : ℚ := if f ≠ 0 then f else 1

/-- The pair of subpath vertex arrays `(lightVertices, cameraVertices)`
that `MISWeight` reads and temporarily mutates. -/
abbrev SubpathState := (ℕ → Vertex) × (ℕ → Vertex)

/-- A mutable location targeted by one of the `ScopedAssignment`s inside
`MISWeight`: a whole vertex slot, a `pdfRev` field or a `delta` flag, in
either subpath array. -/
inductive Loc where
  | lightWhole : ℕ → Loc
  | lightRev : ℕ → Loc
  | lightDelta : ℕ → Loc
  | camWhole : ℕ → Loc
  | camRev : ℕ → Loc
  | camDelta : ℕ → Loc
deriving DecidableEq, Repr

/-- A value stored at a `Loc`. -/
inductive Val where
  | vert : Vertex → Val
  | rat : ℚ → Val
  | flag : Bool → Val
deriving DecidableEq, Repr

/-- Read the current value at a location. -/
def readLoc (st : SubpathState) : Loc → Val
  | Loc.lightWhole i => Val.vert (st.1 i)
  | Loc.lightRev i => Val.rat (st.1 i).pdfRev
  | Loc.lightDelta i => Val.flag (st.1 i).delta
  | Loc.camWhole i => Val.vert (st.2 i)
  | Loc.camRev i => Val.rat (st.2 i).pdfRev
  | Loc.camDelta i => Val.flag (st.2 i).delta

/-- Write a value at a location (a kind-mismatched write is a no-op; the
model never produces one). -/
def writeLoc (st : SubpathState) : Loc → Val → SubpathState
  | Loc.lightWhole i, Val.vert v => (Function.update st.1 i v, st.2)
  | Loc.lightRev i, Val.rat q =>
      (Function.update st.1 i { st.1 i with pdfRev := q }, st.2)
  | Loc.lightDelta i, Val.flag b =>
      (Function.update st.1 i { st.1 i with delta := b }, st.2)
  | Loc.camWhole i, Val.vert v => (st.1, Function.update st.2 i v)
  | Loc.camRev i, Val.rat q =>
      (st.1, Function.update st.2 i { st.2 i with pdfRev := q })
  | Loc.camDelta i, Val.flag b =>
      (st.1, Function.update st.2 i { st.2 i with delta := b })
  | _, _ => st

theorem writeLoc_readLoc (st : SubpathState) (l : Loc) :
    writeLoc st l (readLoc st l) = st := by
  cases l <;>
    simp [readLoc, writeLoc, Function.update_eq_self]

theorem writeLoc_writeLoc_readLoc (st : SubpathState) (l : Loc) (v : Val) :
    writeLoc (writeLoc st l v) l (readLoc st l) = st := by
  cases l <;> cases v <;>
    simp [readLoc, writeLoc, Function.update_idem, Function.update_same,
      Function.update_eq_self]

/-- Modelled from the spec: `ScopedAssignment` (bdpt.h is not part of the
excerpt) saves the overwritten value when constructed and restores it when
destroyed; a sequence of them restores in reverse (LIFO) order on scope
exit.  `applyWrites` performs a list of writes in order and returns the
modified state together with the saved old values. -/
def applyWrites : SubpathState → List (Loc × Val) → SubpathState × List (Loc × Val)
  | st, [] => (st, [])
  | st, (l, v) :: rest =>
      let old := readLoc st l
      let r := applyWrites (writeLoc st l v) rest
      (r.1, (l, old) :: r.2)

/-- Restore saved values in LIFO order: the head of the saved list was the
first assignment, so it is written back last. -/
def restoreWrites : SubpathState → List (Loc × Val) → SubpathState
  | st, [] => st
  | st, (l, v) :: rest => writeLoc (restoreWrites st rest) l v

theorem restore_applyWrites (ws : List (Loc × Val)) : ∀ st : SubpathState,
    restoreWrites (applyWrites st ws).1 (applyWrites st ws).2 = st := by
  induction ws with
  | nil => intro st; rfl
  | cons hd tl ih =>
      intro st
      obtain ⟨l, v⟩ := hd
      simp only [applyWrites, restoreWrites]
      rw [ih]
      exact writeLoc_writeLoc_readLoc st l v

/-- Oracle values for the four reverse-density computations of `MISWeight`
(calls into `Vertex::Pdf`, `Vertex::PdfLightOrigin` and `Vertex::PdfLight`,
which live outside the excerpt): the values stored by the scoped
assignments `a4`..`a7`. -/
structure PdfOracle where
  ptRev : ℚ := 0
  ptMinusRev : ℚ := 0
  qsRev : ℚ := 0
  qsMinusRev : ℚ := 0
deriving DecidableEq, Repr

/-- The temporary writes `a1`..`a7` performed by `MISWeight` for strategy
`(s,t)`, in program order: substitute the sampled endpoint for `s=1` or
`t=1`, clear the `delta` flags of the two connection endpoints, and
overwrite four `pdfRev` fields. -/
def misWriteList (sampled : Vertex) (s t : ℕ) (o : PdfOracle) :
    List (Loc × Val) :=
  (if s = 1 then [(Loc.lightWhole (s - 1), Val.vert sampled)]
   else if t = 1 then [(Loc.camWhole (t - 1), Val.vert sampled)]
   else [])
  ++ (if 0 < t then [(Loc.camDelta (t - 1), Val.flag false)] else [])
  ++ (if 0 < s then [(Loc.lightDelta (s - 1), Val.flag false)] else [])
  ++ (if 0 < t then [(Loc.camRev (t - 1), Val.rat o.ptRev)] else [])
  ++ (if 1 < t then [(Loc.camRev (t - 2), Val.rat o.ptMinusRev)] else [])
  ++ (if 0 < s then [(Loc.lightRev (s - 1), Val.rat o.qsRev)] else [])
  ++ (if 1 < s then [(Loc.lightRev (s - 2), Val.rat o.qsMinusRev)] else [])

/-- The subpath arrays as `MISWeight` sees them after the temporary
updates. -/
def misModifiedState (st : SubpathState) (sampled : Vertex) (s t : ℕ)
    (o : PdfOracle) : SubpathState :=
  (applyWrites st (misWriteList sampled s t o)).1

/-- The `effDensRatio` computation: square the running ratio under the
power heuristic, replace it by 1 under the uniform heuristic, keep it for
the balance heuristic. -/
def effRatio (mode : MisStrategy) (ri : ℚ) : ℚ :=
  match mode with
  | MisStrategy.power => ri * ri
  | MisStrategy.uniform => 1
  | MisStrategy.balance => ri

/-- The rectifier lookup `rectifier->Get(pxCoords, depth, i)` with the
pixel coordinates fixed, or the constant 1 when no rectifier is
supplied (`rectifier == nullptr`). -/
def rectGet (rectifier : Option (ℕ → ℕ → ℚ)) (depth i : ℕ) : ℚ :=
  match rectifier with
  | some get => get depth i
  | none => 1

/-- The first `MISWeight` loop (hypothetical strategies along the camera
subpath), run from index `n` down to 1 with incoming running ratio `ri`:
`ri *= remap0(pdfRev)/remap0(pdfFwd)`, and the effective ratio times the
strategy factor is accumulated whenever neither the vertex nor its
predecessor is delta. -/
def camSum (cv : ℕ → Vertex) (eff : ℚ → ℚ) (fac : ℕ → ℚ) :
    ℕ → ℚ → ℚ
  | 0, _ => 0
  | n + 1, ri =>
      let ri2 := ri * (remap0 (cv (n + 1)).pdfRev / remap0 (cv (n + 1)).pdfFwd)
      (if (cv (n + 1)).delta = false ∧ (cv n).delta = false
        then eff ri2 * fac (n + 1) else 0)
      + camSum cv eff fac n ri2

/-- The second `MISWeight` loop (hypothetical strategies along the light
subpath), run from index `n - 1` down to 0: at index 0 the predecessor
delta test becomes `lightVertices[0].IsDeltaLight()`. -/
def lightSum (lv : ℕ → Vertex) (eff : ℚ → ℚ) (fac : ℕ → ℚ) :
    ℕ → ℚ → ℚ
  | 0, _ => 0
  | n + 1, ri =>
      let ri2 := ri * (remap0 (lv n).pdfRev / remap0 (lv n).pdfFwd)
      let deltaLightvertex :=
        if 0 < n then (lv (n - 1)).delta else (lv 0).isDeltaLight
      (if (lv n).delta = false ∧ deltaLightvertex = false
        then eff ri2 * fac n else 0)
      + lightSum lv eff fac n ri2

/-- The body of `MISWeight` after the temporary updates: both accumulation
loops followed by `1 / (1 + sumRi / stratFactorCurTech)`. -/
def misCore (st : SubpathState) (s t : ℕ)
    (rectifier : Option (ℕ → ℕ → ℚ)) (mode : MisStrategy) : ℚ :=
  let sumRi :=
    camSum st.2 (effRatio mode) (fun i => rectGet rectifier (s + t) i)
      (t - 1) 1
    + lightSum st.1 (effRatio mode)
        (fun i => rectGet rectifier (s + t) (s + t - i)) s 1
  let stratFactorCurTech := rectGet rectifier (s + t) t
  1 / (1 + sumRi / stratFactorCurTech)

/-- The function `MISWeight` of bdpt.cpp: weight 1 for `s + t == 2`,
otherwise the balance/power/uniform sum of rectified density ratios over
the temporarily modified subpath arrays. -/
def MISWeight (st : SubpathState) (sampled : Vertex) (s t : ℕ)
    (o : PdfOracle) (rectifier : Option (ℕ → ℕ → ℚ))
    (mode : MisStrategy) : ℚ :=
  if s + t = 2 then 1
  else misCore (misModifiedState st sampled s t o) s t rectifier mode

/-- `MISWeight` together with its net effect on the two vertex arrays:
the scoped assignments are applied, the weight is computed, and the saved
values are restored in reverse order before returning. -/
def MISWeightRun (st : SubpathState) (sampled : Vertex) (s t : ℕ)
    (o : PdfOracle) (rectifier : Option (ℕ → ℕ → ℚ))
    (mode : MisStrategy) : ℚ × SubpathState :=
  if s + t = 2 then (1, st)
  else
    let r := applyWrites st (misWriteList sampled s t o)
    (misCore r.1 s t rectifier mode, restoreWrites r.1 r.2)

/-- The function `CorrectShadingNormal` of bdpt.cpp over the four oracle
dot products `|wo.ns| |wi.ng| |wo.ng| |wi.ns|`: the shading-normal
correction for importance transport, 1 for radiance transport, and 0 when
the denominator vanishes. -/
def CorrectShadingNormal (mode : TransportMode) (woNs wiNg woNg wiNs : ℚ) : ℚ :=
  if mode = TransportMode.Importance then
    let num := woNs * wiNg
    let denom := woNg * wiNs
    if denom = 0 then 0 else num / denom
  else 1

/-- Oracle data consumed by one iteration of the `RandomWalk` loop: the
results of `Scene::Intersect`, `Medium::Sample`, `PhaseFunction::Sample_p`,
`BSDF::Sample_f`, `BSDF::Pdf` and the geometric factors hidden inside
`Vertex::ConvertDensity` (all of which live outside the excerpt).
`mediumScale` is the throughput factor of the medium sample (1 when the ray
carries no medium), `miValid` whether a medium interaction was produced,
`jacIn` the solid-angle-to-area factor for the newly created vertex and
`jacRev` the one used for the preceding vertex's reverse density. -/
structure WalkStep where
  foundIntersection : Bool := true
  mediumScale : ℚ := 1
  miValid : Bool := false
  phasePdf : ℚ := 0
  hasBsdf : Bool := true
  f : ℚ := 1
  samplePdf : ℚ := 1
  bsdfRevPdf : ℚ := 0
  isSpecular : Bool := false
  cosWiNs : ℚ := 1
  woNs : ℚ := 1
  wiNg : ℚ := 1
  woNg : ℚ := 1
  wiNs : ℚ := 1
  jacIn : ℚ := 1
  jacRev : ℚ := 1
deriving DecidableEq, Repr, Inhabited

/-- The loop of `RandomWalk`, one `WalkStep` per iteration (the list is a
finite trace of the scene oracles; exhausting it ends the walk).  `prev`
is the vertex preceding the walk's buffer (`path[-1]`, the caller's
endpoint vertex); the result is the final bounce count, the updated `prev`
(its `pdfRev` is written retroactively) and the vertices written into the
buffer, in order. -/
def randomWalkAux (mode : TransportMode) (maxDepth : ℕ) :
    List WalkStep → ℚ → ℚ → ℕ → Vertex → ℕ × Vertex × List Vertex
  | [], _, _, bounces, prev => (bounces, prev, [])
  | step :: rest, beta, pdfFwd, bounces, prev =>
      let beta1 := beta * step.mediumScale
      if beta1 = 0 then (bounces, prev, [])
      else if step.miValid then
        let vertex : Vertex :=
          { vkind := VertexKind.medium, beta := beta1,
            pdfFwd := pdfFwd * step.jacIn }
        if maxDepth ≤ bounces + 1 then (bounces + 1, prev, [vertex])
        else
          let prev' := { prev with pdfRev := step.phasePdf * step.jacRev }
          let r := randomWalkAux mode maxDepth rest beta1 step.phasePdf
            (bounces + 1) vertex
          (r.1, prev', r.2.1 :: r.2.2)
      else if step.foundIntersection = false then
        if mode = TransportMode.Radiance then
          (bounces + 1, prev,
            [{ vkind := VertexKind.light, beta := beta1, pdfFwd := pdfFwd }])
        else (bounces, prev, [])
      else if step.hasBsdf = false then
        randomWalkAux mode maxDepth rest beta1 pdfFwd bounces prev
      else
        let vertex : Vertex :=
          { vkind := VertexKind.surface, beta := beta1,
            pdfFwd := pdfFwd * step.jacIn }
        if maxDepth ≤ bounces + 1 then (bounces + 1, prev, [vertex])
        else if step.f = 0 ∨ step.samplePdf = 0 then (bounces + 1, prev, [vertex])
        else
          let beta2 := beta1 * step.f * step.cosWiNs / step.samplePdf
          let vertex' := if step.isSpecular then { vertex with delta := true }
            else vertex
          let pdfFwd' := if step.isSpecular then 0 else step.samplePdf
          let pdfRev' := if step.isSpecular then 0 else step.bsdfRevPdf
          let beta3 := beta2 *
            CorrectShadingNormal mode step.woNs step.wiNg step.woNg step.wiNs
          let prev' := { prev with pdfRev := pdfRev' * step.jacRev }
          let r := randomWalkAux mode maxDepth rest beta3 pdfFwd'
            (bounces + 1) vertex'
          (r.1, prev', r.2.1 :: r.2.2)

/-- The function `RandomWalk` of bdpt.cpp: immediately 0 bounces for
`maxDepth == 0`, otherwise the loop starting at bounce 0 with
`pdfFwd = pdf`. -/
def RandomWalk (mode : TransportMode) (maxDepth : ℕ) (steps : List WalkStep)
    (beta pdf : ℚ) (prev : Vertex) : ℕ × Vertex × List Vertex :=
  if maxDepth = 0 then (0, prev, [])
  else randomWalkAux mode maxDepth steps beta pdf 0 prev

/-- The function `GenerateCameraSubpath` of bdpt.cpp: place the camera
vertex in slot 0 and extend by `RandomWalk` with depth `maxDepth - 1` in
radiance mode; returns the vertex count and the subpath. -/
def GenerateCameraSubpath (maxDepth : ℕ) (steps : List WalkStep)
    (cameraVertex : Vertex) (beta pdfDir : ℚ) : ℕ × List Vertex :=
  if maxDepth = 0 then (0, [])
  else
    let r := RandomWalk TransportMode.Radiance (maxDepth - 1) steps beta
      pdfDir cameraVertex
    (r.1 + 1, r.2.1 :: r.2.2)

/-- Oracle data for the start of a light subpath: the light sample of
`Light::Sample_Le`, the selected light's discrete probability, the created
endpoint vertex and the infinite-area-light correction inputs. -/
structure LightStartInputs where
  pdfPos : ℚ := 1
  pdfDir : ℚ := 1
  lightPdf : ℚ := 1
  Le : ℚ := 1
  absDotNLd : ℚ := 1
  lightVertex : Vertex := { vkind := VertexKind.light }
  isInfiniteLight : Bool := false
  infDensity : ℚ := 0
  path1AbsDot : ℚ := 1
deriving DecidableEq, Repr, Inhabited

/-- The infinite-area-light correction applied to `path[1]`: reset its
forward density to `pdfPos`, times the geometric term when the vertex is
on a surface. -/
def fixPath1 (inp : LightStartInputs) : List Vertex → List Vertex
  | [] => []
  | v :: vs =>
      { v with pdfFwd := inp.pdfPos *
          (if v.IsOnSurface then inp.path1AbsDot else 1) } :: vs

/-- The function `GenerateLightSubpath` of bdpt.cpp: early out on a failed
light sample, otherwise run `RandomWalk` with depth `maxDepth - 1` in
importance mode and apply the infinite-area-light density corrections to
the first two vertices. -/
def GenerateLightSubpath (maxDepth : ℕ) (steps : List WalkStep)
    (inp : LightStartInputs) : ℕ × List Vertex :=
  if maxDepth = 0 then (0, [])
  else if inp.pdfPos = 0 ∨ inp.pdfDir = 0 ∨ inp.Le = 0 then (0, [])
  else
    let beta := inp.Le * inp.absDotNLd / (inp.lightPdf * inp.pdfPos * inp.pdfDir)
    let r := RandomWalk TransportMode.Importance (maxDepth - 1) steps beta
      inp.pdfDir inp.lightVertex
    let walkPath :=
      if inp.isInfiniteLight ∧ 0 < r.1 then fixPath1 inp r.2.2 else r.2.2
    let v0 := if inp.isInfiniteLight then
        { r.2.1 with pdfFwd := inp.infDensity }
      else r.2.1
    (r.1 + 1, v0 :: walkPath)

theorem fixPath1_length (inp : LightStartInputs) (l : List Vertex) :
    (fixPath1 inp l).length = l.length := by
  cases l <;> rfl

/-- The function `BufferIndex` of bdpt.cpp: the variance-estimator buffer
index of strategy `(s,t)`, computed as `s + t - 2 + t`. -/
def BufferIndex (s t : ℤ) : ℤ := s + t - 2 + t

/-- A strategy `(s,t)` valid for the render loop with depth limit
`maxDepth`: `t ≥ 1`, `s ≥ 0`, `0 ≤ s + t - 2 ≤ maxDepth`, not `(1,1)`. -/
def validStrategy (maxDepth s t : ℤ) : Prop :=
  1 ≤ t ∧ 0 ≤ s ∧ 0 ≤ s + t - 2 ∧ s + t - 2 ≤ maxDepth ∧ ¬(s = 1 ∧ t = 1)

instance (maxDepth s t : ℤ) : Decidable (validStrategy maxDepth s t) := by
  unfold validStrategy
  infer_instance

/-- The function `fnv_init` of bdpt.cpp: the 32-bit FNV offset basis. -/
def fnv_init : ℕ := 0x811C9DC5

/-- The FNV prime used by `fnv_hash`. -/
def fnvPrime : ℕ := 16777619

/-- One byte step of `fnv_hash`: multiply by the FNV prime (32-bit
wrap-around) and xor with the byte. -/
def fnvByteStep (h b : ℕ) : ℕ := (h * fnvPrime % 2 ^ 32) ^^^ b

/-- The function `fnv_hash` of bdpt.cpp: absorb the four bytes of a 32-bit
word, least significant byte first. -/
def fnv_hash (h d : ℕ) : ℕ :=
  let h1 := fnvByteStep h (d % 256)
  let h2 := fnvByteStep h1 (d / 2 ^ 8 % 256)
  let h3 := fnvByteStep h2 (d / 2 ^ 16 % 256)
  fnvByteStep h3 (d / 2 ^ 24 % 256)

/-- The function `sampler_seed` of bdpt.cpp: hash the pixel (tile) index,
then the iteration (pass offset). -/
def sampler_seed (pixel iter : ℕ) : ℕ := fnv_hash (fnv_hash fnv_init pixel) iter

/-- The four bytes of a 32-bit word, least significant first. -/
def bytesLE32 (d : ℕ) : List ℕ :=
  [d % 256, d / 2 ^ 8 % 256, d / 2 ^ 16 % 256, d / 2 ^ 24 % 256]

/-- The 32-bit FNV-1 hash of a byte list: for each byte, multiply the
state by the prime (mod `2^32`), then xor with the byte. -/
def fnv1Bytes (bytes : List ℕ) : ℕ :=
  bytes.foldl (fun h b => (h * fnvPrime % 2 ^ 32) ^^^ b) fnv_init

/-- Modelled from the spec: the 32-bit FNV-1a hash of a byte list (offset
basis 0x811C9DC5, prime 16777619, arithmetic modulo `2^32`): for each
byte, xor the state with the byte, then multiply by the prime.  This is
the spec-side definition that claim C8 compares `sampler_seed` against. -/
def fnv1aBytes (bytes : List ℕ) : ℕ :=
  bytes.foldl (fun h b => (h ^^^ b) * fnvPrime % 2 ^ 32) fnv_init

/-- Modelled from the spec: the per-tile seed as claim C8 states it — the
FNV-1a hash of the eight bytes of `(tileIndex, passOffset)`, tile index
first, least-significant byte first. -/
def samplerSeedSpec (pixel iter : ℕ) : ℕ :=
  fnv1aBytes (bytesLE32 pixel ++ bytesLE32 iter)

/-- The `factorScheme` lambda of `BDPTIntegrator::Render`: the rectifier
factor as a function of the configured scheme, the depth and strategy
index (unused), the cell variance and the cell mean. -/
def factorScheme (misMod : MisModification) (_d _t : ℕ) (var mean : ℚ) : ℚ :=
  match misMod with
  | MisModification.modNone => 1
  | MisModification.reciprocalVariance => if var = 0 then 1 else 1 / var
  | MisModification.momentOverVariance =>
      if var ≠ 0 ∧ mean ≠ 0 then 1 + mean * mean / var else 1

/-- The camera-loop values of `t` in `BDPTIntegrator::Render`:
`1 .. nCamera`. -/
def tRange (nCamera : ℕ) : List ℕ := (List.range nCamera).map (fun k => k + 1)

/-- The light-loop values of `s` in `BDPTIntegrator::Render`:
`0 .. nLight`. -/
def sRange (nLight : ℕ) : List ℕ := List.range (nLight + 1)

/-- The body of the double strategy loop of `BDPTIntegrator::Render` for a
fixed `t` and fixed camera/light subpaths: skip `(1,1)` and depths outside
`[0, maxDepth]`; otherwise add the contribution to the accumulated
radiance `L` when `t != 1`, and record a splat `(s, t, Lpath)` when
`t == 1`.  `contrib s t` stands for the `Lpath` of `ConnectBDPT`. -/
def connectBody (contrib : ℕ → ℕ → ℚ) (maxDepth : ℤ) (t : ℕ)
    (acc : ℚ × List (ℕ × ℕ × ℚ)) (s : ℕ) : ℚ × List (ℕ × ℕ × ℚ) :=
  if (s = 1 ∧ t = 1) ∨ (s : ℤ) + t - 2 < 0 ∨ maxDepth < (s : ℤ) + t - 2 then acc
  else if t ≠ 1 then (acc.1 + contrib s t, acc.2)
  else (acc.1, acc.2 ++ [(s, t, contrib s t)])

/-- The full double strategy loop of `BDPTIntegrator::Render` for one
pixel sample: fold the body over `t = 1..nCamera`, `s = 0..nLight`,
starting from `L = 0` and no splats. -/
def connectLoop (contrib : ℕ → ℕ → ℚ) (maxDepth : ℤ)
    (nCamera nLight : ℕ) : ℚ × List (ℕ × ℕ × ℚ) :=
  (tRange nCamera).foldl
    (fun acc t => (sRange nLight).foldl (connectBody contrib maxDepth t) acc)
    (0, [])

/-- The loop-body guard as a Boolean: the strategy `(s,t)` is executed
(not skipped) under depth limit `maxDepth`. -/
def executedB (maxDepth : ℤ) (s t : ℕ) : Bool :=
  decide (¬((s = 1 ∧ t = 1) ∨ (s : ℤ) + (t : ℤ) - 2 < 0 ∨
    maxDepth < (s : ℤ) + (t : ℤ) - 2))

/-- The strategies that the loop actually executes, in loop order. -/
def executedPairs (maxDepth : ℤ) (nCamera nLight : ℕ) : List (ℕ × ℕ) :=
  (tRange nCamera).bind fun t =>
    ((sRange nLight).filter fun s => executedB maxDepth s t).map fun s => (s, t)

/-- Oracle values for the collaborator calls made by `ConnectBDPT`:
emitted radiance, throughputs, BSDF evaluations, camera and light samples,
visibility transmittance and the geometric factor `G`. -/
structure ConnectInputs where
  camTopIsLightType : Bool := false
  ptIsLight : Bool := false
  ptLe : ℚ := 0
  ptBeta : ℚ := 0
  qsBeta : ℚ := 0
  qsConnectible : Bool := true
  ptConnectible : Bool := true
  camPdf : ℚ := 0
  camWi : ℚ := 0
  qsF : ℚ := 0
  qsOnSurface : Bool := false
  qsCos : ℚ := 1
  visTr : ℚ := 1
  lightSelectPdf : ℚ := 1
  lightLiPdf : ℚ := 0
  lightLi : ℚ := 0
  ptF : ℚ := 0
  ptOnSurface : Bool := false
  ptCos : ℚ := 1
  qsFpt : ℚ := 0
  ptFqs : ℚ := 0
  gFactor : ℚ := 0
deriving DecidableEq, Repr, Inhabited

/-- The unweighted contribution `L` that the four connection cases of
`ConnectBDPT` compute (`s = 0`, `t = 1`, `s = 1`, and the general case),
with the `IsConnectible`, pdf and blackness guards of the source. -/
def connectL (s t : ℕ) (inp : ConnectInputs) : ℚ :=
  if s = 0 then
    if inp.ptIsLight then inp.ptLe * inp.ptBeta else 0
  else if t = 1 then
    if inp.qsConnectible then
      if 0 < inp.camPdf ∧ inp.camWi ≠ 0 then
        let sampledBeta := inp.camWi / inp.camPdf
        let L0 := inp.qsBeta * inp.qsF * sampledBeta
        let L1 := if inp.qsOnSurface then L0 * inp.qsCos else L0
        if L1 ≠ 0 then L1 * inp.visTr else L1
      else 0
    else 0
  else if s = 1 then
    if inp.ptConnectible then
      if 0 < inp.lightLiPdf ∧ inp.lightLi ≠ 0 then
        let sampledBeta := inp.lightLi / (inp.lightLiPdf * inp.lightSelectPdf)
        let L0 := inp.ptBeta * inp.ptF * sampledBeta
        let L1 := if inp.ptOnSurface then L0 * inp.ptCos else L0
        if L1 ≠ 0 then L1 * inp.visTr else L1
      else 0
    else 0
  else
    if inp.qsConnectible ∧ inp.ptConnectible then
      let L0 := inp.qsBeta * inp.qsFpt * inp.ptFqs * inp.ptBeta
      if L0 ≠ 0 then L0 * inp.gFactor else L0
    else 0

/-- The function `ConnectBDPT` of bdpt.cpp, with `W` standing for the
value `MISWeight` would return if invoked.  The second component models
the store through `misWeightPtr`: `none` on the infinite-light
early-return path (which returns before the weighting code), `some w`
otherwise.  The weight is `0` without consulting `W` when `L` is black. -/
def ConnectBDPT (s t : ℕ) (inp : ConnectInputs) (W : ℚ) : ℚ × Option ℚ :=
  if 1 < t ∧ s ≠ 0 ∧ inp.camTopIsLightType then (0, none)
  else
    let L := connectL s t inp
    let misWeight := if L = 0 then 0 else W
    (L * misWeight, some misWeight)

/-- The running ratio of the camera loop of `MISWeight` in closed form:
the product of `remap0(pdfRev)/remap0(pdfFwd)` over indices `i..n`. -/
def camRatioProd (cv : ℕ → Vertex) (i n : ℕ) : ℚ :=
  ∏ k in Finset.Icc i n, remap0 (cv k).pdfRev / remap0 (cv k).pdfFwd

/-- The running ratio of the light loop of `MISWeight` in closed form. -/
def lightRatioProd (lv : ℕ → Vertex) (i n : ℕ) : ℚ :=
  ∏ k in Finset.Icc i n, remap0 (lv k).pdfRev / remap0 (lv k).pdfFwd

/-- The accumulated sum `Σ` of `MISWeight` in closed form, over the
(already temporarily modified) subpath arrays: remapped density-ratio
products of the hypothetical strategies of both subpaths, skipping
strategies adjacent to a delta vertex, each with the MIS-heuristic
exponent applied and multiplied by its rectifier factor. -/
def misSumSpec (st : SubpathState) (s t : ℕ)
    (rectifier : Option (ℕ → ℕ → ℚ)) (mode : MisStrategy) : ℚ :=
  (∑ i in Finset.Icc 1 (t - 1),
      if (st.2 i).delta = false ∧ (st.2 (i - 1)).delta = false
      then effRatio mode (camRatioProd st.2 i (t - 1)) *
        rectGet rectifier (s + t) i
      else 0)
  + (∑ i in Finset.range s,
      if (st.1 i).delta = false ∧
          (if 0 < i then (st.1 (i - 1)).delta else (st.1 0).isDeltaLight) = false
      then effRatio mode (lightRatioProd st.1 i (s - 1)) *
        rectGet rectifier (s + t) (s + t - i)
      else 0)

/-- Delta-marking discipline along a finished subpath (`pred` is the
vertex preceding the list): every delta-marked vertex has a predecessor
whose `pdfRev` is 0 and, when a successor exists, a successor whose
`pdfFwd` is 0. -/
def specZeros (pred : Vertex) : List Vertex → Bool
  | [] => true
  | v :: rest =>
      (!v.delta || (decide (pred.pdfRev = 0) &&
        (match rest with
         | [] => true
         | w :: _ => decide (w.pdfFwd = 0))))
      && specZeros v rest

/-- The head of a vertex list has zero forward density (vacuous for the
empty list). -/
def firstFwdZero : List Vertex → Prop
  | [] => True
  | v :: _ => v.pdfFwd = 0

/-- C4: `MISWeight` leaves both vertex arrays unchanged on exit — every
field temporarily overwritten by the scoped assignments (the substituted
endpoint slot, the `delta` flags and the `pdfRev` fields) holds its
original value again after the function returns, on every exit path. -/
theorem MISWeightRun_restores (st : SubpathState) (sampled : Vertex)
    (s t : ℕ) (o : PdfOracle) (rectifier : Option (ℕ → ℕ → ℚ))
    (mode : MisStrategy) :
    (MISWeightRun st sampled s t o rectifier mode).2 = st := by
  unfold MISWeightRun
  split
  · rfl
  · exact restore_applyWrites (misWriteList sampled s t o) st

/-- C7: the rectifier factor scheme evaluates to 1 under `none`, to
`1/var` for positive variance (else 1) under `reciprocal_variance`, and
to `1 + mean^2/var` for positive variance and nonzero mean (else 1) under
`moment_over_variance`. -/
theorem factorScheme_spec (d t : ℕ) (var mean : ℚ) (hvar : 0 ≤ var) :
    factorScheme MisModification.modNone d t var mean = 1 ∧
    factorScheme MisModification.reciprocalVariance d t var mean =
      (if 0 < var then 1 / var else 1) ∧
    factorScheme MisModification.momentOverVariance d t var mean =
      (if 0 < var ∧ mean ≠ 0 then 1 + mean * mean / var else 1) := by
  refine ⟨rfl, ?_, ?_⟩ <;>
    · by_cases h : var = 0
      · subst h; simp [factorScheme]
      · have hpos : 0 < var := lt_of_le_of_ne hvar (Ne.symm h)
        simp [factorScheme, h, hpos]

/-- Witness for C7 at `var = 2`, `mean = 3`. -/
theorem factorScheme_spec_witness :
    (0 : ℚ) ≤ 2 ∧
    (factorScheme MisModification.modNone 3 1 2 3 = 1 ∧
     factorScheme MisModification.reciprocalVariance 3 1 2 3 =
       (if (0 : ℚ) < 2 then 1 / 2 else 1) ∧
     factorScheme MisModification.momentOverVariance 3 1 2 3 =
       (if (0 : ℚ) < 2 ∧ (3 : ℚ) ≠ 0 then 1 + 3 * 3 / 2 else 1)) :=
  ⟨by norm_num, factorScheme_spec 3 1 2 3 (by norm_num)⟩

/-- C8 counterexample: the seed computed by `sampler_seed` differs from
the FNV-1a hash of the same eight bytes at `(tileIndex, passOffset) =
(1, 0)` — the source multiplies before xoring (FNV-1), not after. -/
theorem sampler_seed_not_fnv1a : sampler_seed 1 0 ≠ samplerSeedSpec 1 0 := by
  decide

/-- C8 (amended): for every tile index and pass offset, the per-tile
sampler seed equals the 32-bit FNV-1 hash (offset basis 0x811C9DC5, prime
16777619, multiply modulo `2^32` then xor) of the eight bytes of the pair
`(tileIndex, passOffset)`, hashing the tile index first, least-significant
byte first. -/
theorem sampler_seed_eq_fnv1 (pixel iter : ℕ) :
    sampler_seed pixel iter = fnv1Bytes (bytesLE32 pixel ++ bytesLE32 iter) :=
  rfl

/-- C9 counterexample: `BufferIndex` maps `(0,2)` to 2 and `(1,1)` to 1,
so the pair given in the claim does not collide at index 1. -/
theorem BufferIndex_claim_pair : BufferIndex 0 2 = 2 ∧ BufferIndex 1 1 = 1 ∧
    BufferIndex 0 2 ≠ BufferIndex 1 1 := by
  decide

/-- C9 (amended): `BufferIndex(s,t) = s + t - 2 + t` does map distinct
valid strategies to the same index: `(0,2)` and `(2,1)` both map to 2. -/
theorem BufferIndex_collision :
    validStrategy 5 0 2 ∧ validStrategy 5 2 1 ∧
    ((0, 2) : ℤ × ℤ) ≠ (2, 1) ∧
    BufferIndex 0 2 = BufferIndex 2 1 ∧ BufferIndex 0 2 = 2 := by
  decide

/-- Concrete oracle input whose unweighted contribution is nonzero
(`s = 0`, the camera subpath ends on a light). -/
def connectInputsNonzero : ConnectInputs :=
  { ptIsLight := true, ptLe := 3, ptBeta := 1 }

/-- Concrete oracle input whose unweighted contribution is zero. -/
def connectInputsZero : ConnectInputs := {}

/-- C10 counterexample: on the infinite-light early-return path
(`t > 1`, `s ≠ 0`, camera endpoint of `Light` type) the contribution `L`
is black, yet `ConnectBDPT` returns without storing anything through
`misWeightPtr` (modelled as `none`), contradicting the claimed
unconditional store of 0. -/
theorem ConnectBDPT_store_cex :
    connectL 1 2 { camTopIsLightType := true } = 0 ∧
    ConnectBDPT 1 2 { camTopIsLightType := true } 7 = (0, none) ∧
    (ConnectBDPT 1 2 { camTopIsLightType := true } 7).2 ≠ some 0 := by
  decide

/-- C10 (amended): away from the infinite-light early return, when the
unweighted contribution is black `ConnectBDPT` stores weight 0 without
invoking `MISWeight` (the result is `(0, some 0)` for every value `W` the
weight function could have) and returns black; when it is nonzero it
stores the computed weight and returns `L * W`.  On the early-return path
it returns black without touching the weight pointer. -/
theorem ConnectBDPT_weight_spec (s t : ℕ) (inp : ConnectInputs) (W : ℚ) :
    (¬(1 < t ∧ s ≠ 0 ∧ inp.camTopIsLightType = true) →
      ((connectL s t inp = 0 → ConnectBDPT s t inp W = (0, some 0)) ∧
       (connectL s t inp ≠ 0 →
          ConnectBDPT s t inp W = (connectL s t inp * W, some W)))) ∧
    ((1 < t ∧ s ≠ 0 ∧ inp.camTopIsLightType = true) →
      ConnectBDPT s t inp W = (0, none)) := by
  by_cases h : 1 < t ∧ s ≠ 0 ∧ inp.camTopIsLightType = true
  · refine ⟨fun hc => absurd h hc, fun _ => ?_⟩
    simp [ConnectBDPT, h]
  · refine ⟨fun _ => ⟨fun hL => ?_, fun hL => ?_⟩, fun hc => absurd hc h⟩
    · simp [ConnectBDPT, h, hL]
    · simp [ConnectBDPT, h, hL]

/-- Witness for C10: a black contribution yields `(0, some 0)` for an
arbitrary `W = 7`; a nonzero contribution yields the weighted radiance and
the stored weight. -/
theorem ConnectBDPT_weight_spec_witness :
    ConnectBDPT 1 2 connectInputsZero 7 = (0, some 0) ∧
    ConnectBDPT 0 2 connectInputsNonzero (1 / 2) =
      (connectL 0 2 connectInputsNonzero * (1 / 2), some (1 / 2)) :=
  ⟨((ConnectBDPT_weight_spec 1 2 connectInputsZero 7).1 (by decide)).1
      (by norm_num [connectL, connectInputsZero]),
   ((ConnectBDPT_weight_spec 0 2 connectInputsNonzero (1 / 2)).1
      (by decide)).2 (by norm_num [connectL, connectInputsNonzero])⟩

theorem camSum_eq (cv : ℕ → Vertex) (eff : ℚ → ℚ) (fac : ℕ → ℚ) :
    ∀ (n : ℕ) (ri : ℚ),
      camSum cv eff fac n ri =
        ∑ i in Finset.Icc 1 n,
          if (cv i).delta = false ∧ (cv (i - 1)).delta = false
          then eff (ri * camRatioProd cv i n) * fac i else 0 := by
  intro n
  induction n with
  | zero => intro ri; simp [camSum]
  | succ m ih =>
      intro ri
      rw [camSum, ih]
      rw [Finset.sum_Icc_succ_top (Nat.le_add_left 1 m)]
      have hprod : ∀ i, i ∈ Finset.Icc 1 m →
          (ri * (remap0 (cv (m + 1)).pdfRev / remap0 (cv (m + 1)).pdfFwd)) *
              camRatioProd cv i m = ri * camRatioProd cv i (m + 1) := by
        intro i hi
        have him : i ≤ m + 1 := le_trans (Finset.mem_Icc.1 hi).2 (Nat.le_succ m)
        rw [camRatioProd, camRatioProd, Finset.prod_Icc_succ_top him]
        ring
      have hsum : ∑ i in Finset.Icc 1 m,
            (if (cv i).delta = false ∧ (cv (i - 1)).delta = false
             then eff ((ri * (remap0 (cv (m + 1)).pdfRev /
                 remap0 (cv (m + 1)).pdfFwd)) * camRatioProd cv i m) * fac i
             else 0)
          = ∑ i in Finset.Icc 1 m,
            (if (cv i).delta = false ∧ (cv (i - 1)).delta = false
             then eff (ri * camRatioProd cv i (m + 1)) * fac i else 0) := by
        refine Finset.sum_congr rfl ?_
        intro i hi
        rw [hprod i hi]
      have htop : camRatioProd cv (m + 1) (m + 1) =
          remap0 (cv (m + 1)).pdfRev / remap0 (cv (m + 1)).pdfFwd := by
        rw [camRatioProd, Finset.Icc_self, Finset.prod_singleton]
      rw [hsum, htop]
      have haux : (m + 1) - 1 = m := rfl
      rw [haux]
      ring

theorem lightSum_eq (lv : ℕ → Vertex) (eff : ℚ → ℚ) (fac : ℕ → ℚ) :
    ∀ (n : ℕ) (ri : ℚ),
      lightSum lv eff fac n ri =
        ∑ i in Finset.range n,
          if (lv i).delta = false ∧
              (if 0 < i then (lv (i - 1)).delta else (lv 0).isDeltaLight) = false
          then eff (ri * lightRatioProd lv i (n - 1)) * fac i else 0 := by
  intro n
  induction n with
  | zero => intro ri; simp [lightSum]
  | succ m ih =>
      intro ri
      rw [lightSum, ih]
      rw [Finset.sum_range_succ]
      have hsum : ∑ i in Finset.range m,
            (if (lv i).delta = false ∧
                (if 0 < i then (lv (i - 1)).delta else (lv 0).isDeltaLight) = false
             then eff ((ri * (remap0 (lv m).pdfRev / remap0 (lv m).pdfFwd)) *
                 lightRatioProd lv i (m - 1)) * fac i
             else 0)
          = ∑ i in Finset.range m,
            (if (lv i).delta = false ∧
                (if 0 < i then (lv (i - 1)).delta else (lv 0).isDeltaLight) = false
             then eff (ri * lightRatioProd lv i (m + 1 - 1)) * fac i else 0) := by
        refine Finset.sum_congr rfl ?_
        intro i hi
        have him : i < m := Finset.mem_range.1 hi
        have hm1 : m - 1 + 1 = m := by omega
        have hile : i ≤ m - 1 + 1 := by omega
        have : lightRatioProd lv i (m + 1 - 1) =
            lightRatioProd lv i (m - 1) *
              (remap0 (lv m).pdfRev / remap0 (lv m).pdfFwd) := by
          have h2 : lightRatioProd lv i (m - 1 + 1) =
              lightRatioProd lv i (m - 1) *
                (remap0 (lv (m - 1 + 1)).pdfRev / remap0 (lv (m - 1 + 1)).pdfFwd) := by
            rw [lightRatioProd, lightRatioProd, Finset.prod_Icc_succ_top hile]
          rw [Nat.add_sub_cancel, ← hm1, h2, hm1]
        rw [this]
        ring
      have htop : lightRatioProd lv m (m + 1 - 1) =
          remap0 (lv m).pdfRev / remap0 (lv m).pdfFwd := by
        rw [Nat.add_sub_cancel, lightRatioProd, Finset.Icc_self,
          Finset.prod_singleton]
      rw [hsum, htop]
      ring

/-- C1: for every strategy `(s,t)`, `MISWeight` returns 1 when
`s + t = 2`, and otherwise `1 / (1 + Σ / β)` where `Σ` is the closed-form
accumulated sum of remapped density ratios over the non-delta
hypothetical strategies of both (temporarily modified) subpaths and `β`
is the rectifier factor of the current strategy, `Get(pxCoords, s+t, t)`,
or 1 when no rectifier is supplied. -/
theorem MISWeight_closed_form (st : SubpathState) (sampled : Vertex)
    (s t : ℕ) (o : PdfOracle) (rectifier : Option (ℕ → ℕ → ℚ))
    (mode : MisStrategy) :
    MISWeight st sampled s t o rectifier mode =
      if s + t = 2 then 1
      else 1 / (1 +
        misSumSpec (misModifiedState st sampled s t o) s t rectifier mode /
          rectGet rectifier (s + t) t) := by
  unfold MISWeight
  split
  · rfl
  · unfold misCore misSumSpec
    rw [camSum_eq, lightSum_eq]
    simp only [one_mul]

/-- A vertex with non-negative densities. -/
def vertexNonneg (v : Vertex) : Prop := 0 ≤ v.pdfFwd ∧ 0 ≤ v.pdfRev

/-- Both subpath arrays contain only vertices with non-negative
densities. -/
def stateNonneg (st : SubpathState) : Prop :=
  (∀ i, vertexNonneg (st.1 i)) ∧ (∀ i, vertexNonneg (st.2 i))

/-- A written value that preserves density non-negativity. -/
def valOK : Val → Prop
  | Val.vert v => vertexNonneg v
  | Val.rat q => 0 ≤ q
  | Val.flag _ => True

theorem remap0_pos (x : ℚ) (hx : 0 ≤ x) : 0 < remap0 x := by
  unfold remap0
  by_cases h : x = 0
  · simp [h]
  · simp only [h, if_pos, ne_eq, not_false_eq_true, if_true]
    exact lt_of_le_of_ne hx (Ne.symm h)

theorem effRatio_nonneg (mode : MisStrategy) (x : ℚ) (hx : 0 ≤ x) :
    0 ≤ effRatio mode x := by
  cases mode with
  | balance => exact hx
  | power => exact mul_self_nonneg x
  | uniform => exact zero_le_one

theorem update_nonneg (f : ℕ → Vertex) (hf : ∀ i, vertexNonneg (f i))
    (j : ℕ) (v : Vertex) (hv : vertexNonneg v) :
    ∀ i, vertexNonneg (Function.update f j v i) := by
  intro i
  rcases eq_or_ne i j with h | h
  · subst h
    rw [Function.update_same]
    exact hv
  · rw [Function.update_noteq h]
    exact hf i

theorem writeLoc_nonneg (st : SubpathState) (l : Loc) (v : Val)
    (hst : stateNonneg st) (hv : valOK v) : stateNonneg (writeLoc st l v) :=
  match l, v, hv with
  | Loc.lightWhole i, Val.vert w, hv => ⟨update_nonneg st.1 hst.1 i w hv, hst.2⟩
  | Loc.lightWhole _, Val.rat _, _ => hst
  | Loc.lightWhole _, Val.flag _, _ => hst
  | Loc.lightRev i, Val.rat _, hv =>
      ⟨update_nonneg st.1 hst.1 i _ ⟨(hst.1 i).1, hv⟩, hst.2⟩
  | Loc.lightRev _, Val.vert _, _ => hst
  | Loc.lightRev _, Val.flag _, _ => hst
  | Loc.lightDelta i, Val.flag _, _ =>
      ⟨update_nonneg st.1 hst.1 i _ ⟨(hst.1 i).1, (hst.1 i).2⟩, hst.2⟩
  | Loc.lightDelta _, Val.vert _, _ => hst
  | Loc.lightDelta _, Val.rat _, _ => hst
  | Loc.camWhole i, Val.vert w, hv => ⟨hst.1, update_nonneg st.2 hst.2 i w hv⟩
  | Loc.camWhole _, Val.rat _, _ => hst
  | Loc.camWhole _, Val.flag _, _ => hst
  | Loc.camRev i, Val.rat _, hv =>
      ⟨hst.1, update_nonneg st.2 hst.2 i _ ⟨(hst.2 i).1, hv⟩⟩
  | Loc.camRev _, Val.vert _, _ => hst
  | Loc.camRev _, Val.flag _, _ => hst
  | Loc.camDelta i, Val.flag _, _ =>
      ⟨hst.1, update_nonneg st.2 hst.2 i _ ⟨(hst.2 i).1, (hst.2 i).2⟩⟩
  | Loc.camDelta _, Val.vert _, _ => hst
  | Loc.camDelta _, Val.rat _, _ => hst

theorem applyWrites_nonneg (ws : List (Loc × Val)) : ∀ st : SubpathState,
    stateNonneg st → (∀ p ∈ ws, valOK p.2) →
    stateNonneg (applyWrites st ws).1 := by
  induction ws with
  | nil => intro st hst _; exact hst
  | cons hd tl ih =>
      intro st hst hok
      obtain ⟨l, v⟩ := hd
      simp only [applyWrites]
      refine ih (writeLoc st l v) (writeLoc_nonneg st l v hst ?_) ?_
      · exact hok (l, v) (List.mem_cons_self _ _)
      · intro p hp
        exact hok p (List.mem_cons_of_mem _ hp)

theorem misWriteList_valOK (sampled : Vertex) (s t : ℕ) (o : PdfOracle)
    (hs : vertexNonneg sampled)
    (ho : 0 ≤ o.ptRev ∧ 0 ≤ o.ptMinusRev ∧ 0 ≤ o.qsRev ∧ 0 ≤ o.qsMinusRev) :
    ∀ p ∈ misWriteList sampled s t o, valOK p.2 := by
  intro p hp
  simp only [misWriteList, List.mem_append] at hp
  rcases hp with ((((((h | h) | h) | h) | h) | h) | h)
  · split at h
    · rw [List.mem_singleton] at h
      subst h
      exact hs
    · split at h
      · rw [List.mem_singleton] at h
        subst h
        exact hs
      · simp at h
  · split at h
    · rw [List.mem_singleton] at h
      subst h
      exact trivial
    · simp at h
  · split at h
    · rw [List.mem_singleton] at h
      subst h
      exact trivial
    · simp at h
  · split at h
    · rw [List.mem_singleton] at h
      subst h
      exact ho.1
    · simp at h
  · split at h
    · rw [List.mem_singleton] at h
      subst h
      exact ho.2.1
    · simp at h
  · split at h
    · rw [List.mem_singleton] at h
      subst h
      exact ho.2.2.1
    · simp at h
  · split at h
    · rw [List.mem_singleton] at h
      subst h
      exact ho.2.2.2
    · simp at h

theorem camSum_nonneg (cv : ℕ → Vertex) (mode : MisStrategy) (fac : ℕ → ℚ)
    (hfac : ∀ i, 0 ≤ fac i) (hcv : ∀ i, vertexNonneg (cv i)) :
    ∀ (n : ℕ) (ri : ℚ), 0 ≤ ri →
      0 ≤ camSum cv (effRatio mode) fac n ri := by
  intro n
  induction n with
  | zero => intro ri _; simp [camSum]
  | succ m ih =>
      intro ri hri
      rw [camSum]
      have hri2 : 0 ≤ ri *
          (remap0 (cv (m + 1)).pdfRev / remap0 (cv (m + 1)).pdfFwd) := by
        refine mul_nonneg hri (div_nonneg ?_ ?_)
        · exact (remap0_pos _ (hcv (m + 1)).2).le
        · exact (remap0_pos _ (hcv (m + 1)).1).le
      refine add_nonneg ?_ (ih _ hri2)
      split
      · exact mul_nonneg (effRatio_nonneg mode _ hri2) (hfac (m + 1))
      · exact le_refl 0

theorem lightSum_nonneg (lv : ℕ → Vertex) (mode : MisStrategy) (fac : ℕ → ℚ)
    (hfac : ∀ i, 0 ≤ fac i) (hlv : ∀ i, vertexNonneg (lv i)) :
    ∀ (n : ℕ) (ri : ℚ), 0 ≤ ri →
      0 ≤ lightSum lv (effRatio mode) fac n ri := by
  intro n
  induction n with
  | zero => intro ri _; simp [lightSum]
  | succ m ih =>
      intro ri hri
      rw [lightSum]
      have hri2 : 0 ≤ ri * (remap0 (lv m).pdfRev / remap0 (lv m).pdfFwd) := by
        refine mul_nonneg hri (div_nonneg ?_ ?_)
        · exact (remap0_pos _ (hlv m).2).le
        · exact (remap0_pos _ (hlv m).1).le
      refine add_nonneg ?_ (ih _ hri2)
      split <;> split <;>
        first
          | exact mul_nonneg (effRatio_nonneg mode _ hri2) (hfac m)
          | exact le_refl (0 : ℚ)

/-- C2: for every strategy `(s,t)`, subpaths whose vertices all carry
non-negative densities (including the substituted sampled endpoint and
the oracle reverse densities), and a rectifier whose factors are all
positive (or no rectifier), the MIS weight lies in `[0, 1]`. -/
theorem MISWeight_range (st : SubpathState) (sampled : Vertex) (s t : ℕ)
    (o : PdfOracle) (rectifier : Option (ℕ → ℕ → ℚ)) (mode : MisStrategy)
    (hst : stateNonneg st) (hs : vertexNonneg sampled)
    (ho : 0 ≤ o.ptRev ∧ 0 ≤ o.ptMinusRev ∧ 0 ≤ o.qsRev ∧ 0 ≤ o.qsMinusRev)
    (hrect : ∀ g, rectifier = some g → ∀ d i, 0 < g d i) :
    0 ≤ MISWeight st sampled s t o rectifier mode ∧
      MISWeight st sampled s t o rectifier mode ≤ 1 := by
  have hget : ∀ d i, 0 < rectGet rectifier d i := by
    intro d i
    cases hr : rectifier with
    | none => simp [rectGet]
    | some g => simpa [rectGet] using hrect g hr d i
  unfold MISWeight
  split
  · exact ⟨zero_le_one, le_refl 1⟩
  · unfold misCore
    have hmod : stateNonneg (misModifiedState st sampled s t o) :=
      applyWrites_nonneg (misWriteList sampled s t o) st hst
        (misWriteList_valOK sampled s t o hs ho)
    have hcam : 0 ≤ camSum (misModifiedState st sampled s t o).2
        (effRatio mode) (fun i => rectGet rectifier (s + t) i) (t - 1) 1 :=
      camSum_nonneg _ mode _ (fun i => (hget (s + t) i).le) hmod.2 (t - 1) 1
        zero_le_one
    have hlight : 0 ≤ lightSum (misModifiedState st sampled s t o).1
        (effRatio mode) (fun i => rectGet rectifier (s + t) (s + t - i)) s 1 :=
      lightSum_nonneg _ mode _ (fun i => (hget (s + t) (s + t - i)).le)
        hmod.1 s 1 zero_le_one
    have hsum : 0 ≤ camSum (misModifiedState st sampled s t o).2
          (effRatio mode) (fun i => rectGet rectifier (s + t) i) (t - 1) 1
        + lightSum (misModifiedState st sampled s t o).1
          (effRatio mode) (fun i => rectGet rectifier (s + t) (s + t - i)) s 1 :=
      add_nonneg hcam hlight
    have hdiv : 0 ≤ (camSum (misModifiedState st sampled s t o).2
          (effRatio mode) (fun i => rectGet rectifier (s + t) i) (t - 1) 1
        + lightSum (misModifiedState st sampled s t o).1
          (effRatio mode) (fun i => rectGet rectifier (s + t) (s + t - i)) s 1)
        / rectGet rectifier (s + t) t :=
      div_nonneg hsum (hget (s + t) t).le
    constructor
    · positivity
    · rw [div_le_one (by linarith)]
      linarith

/-- Witness for C2 at all-default vertices, no rectifier, `(s,t) = (1,2)`,
balance heuristic. -/
theorem MISWeight_range_witness :
    0 ≤ MISWeight (fun _ => {}, fun _ => {}) {} 1 2 {} none
        MisStrategy.balance ∧
      MISWeight (fun _ => {}, fun _ => {}) {} 1 2 {} none
        MisStrategy.balance ≤ 1 :=
  MISWeight_range (fun _ => {}, fun _ => {}) {} 1 2 {} none
    MisStrategy.balance
    ⟨fun _ => ⟨le_refl 0, le_refl 0⟩, fun _ => ⟨le_refl 0, le_refl 0⟩⟩
    ⟨le_refl 0, le_refl 0⟩
    ⟨le_refl 0, le_refl 0, le_refl 0, le_refl 0⟩
    (fun g hg => by simp at hg)

theorem specZeros_cons (pred v : Vertex) (rest : List Vertex) :
    specZeros pred (v :: rest) = true ↔
      ((v.delta = true → pred.pdfRev = 0 ∧ firstFwdZero rest) ∧
        specZeros v rest = true) := by
  cases rest with
  | nil =>
      cases hv : v.delta <;>
        simp [specZeros, firstFwdZero, hv]
  | cons w ws =>
      cases hv : v.delta <;>
        simp [specZeros, firstFwdZero, hv]

theorem randomWalkAux_specZeros (mode : TransportMode) (maxDepth : ℕ) :
    ∀ (steps : List WalkStep) (beta pdfFwd : ℚ) (bounces : ℕ) (prev : Vertex),
      specZeros (randomWalkAux mode maxDepth steps beta pdfFwd bounces prev).2.1
          (randomWalkAux mode maxDepth steps beta pdfFwd bounces prev).2.2 = true
      ∧ (pdfFwd = 0 →
          firstFwdZero
            (randomWalkAux mode maxDepth steps beta pdfFwd bounces prev).2.2)
      ∧ (randomWalkAux mode maxDepth steps beta pdfFwd bounces prev).2.1.delta
          = prev.delta
      ∧ (randomWalkAux mode maxDepth steps beta pdfFwd bounces prev).2.1.pdfFwd
          = prev.pdfFwd := by
  intro steps
  induction steps with
  | nil =>
      intro beta pdfFwd bounces prev
      exact ⟨rfl, fun _ => trivial, rfl, rfl⟩
  | cons step rest ih =>
      intro beta pdfFwd bounces prev
      obtain ⟨found, mscale, mivalid, phase, hasB, f, spdf, brev, ispec,
        cosW, woNs, wiNg, woNg, wiNs, jacIn, jacRev⟩ := step
      by_cases h1 : beta * mscale = 0
      · simp [randomWalkAux, h1, specZeros, firstFwdZero]
      · cases mivalid with
        | true =>
            by_cases h3 : maxDepth ≤ bounces + 1
            · simp [randomWalkAux, h1, h3, specZeros, firstFwdZero]
              exact fun hf => Or.inl hf
            · obtain ⟨ihA, ihB, ihC, ihD⟩ := ih (beta * mscale) phase
                (bounces + 1)
                { vkind := VertexKind.medium, beta := beta * mscale,
                  pdfFwd := pdfFwd * jacIn }
              simp only [randomWalkAux, h1, h3, if_false, ite_true,
                ite_false, if_true]
              refine ⟨?_, fun hf => ?_, by first | rfl | trivial,
                by first | rfl | trivial⟩
              · rw [specZeros_cons]
                refine ⟨fun hd => ?_, ihA⟩
                rw [ihC] at hd
                simp at hd
              · show (randomWalkAux mode maxDepth rest (beta * mscale) phase
                    (bounces + 1)
                    { vkind := VertexKind.medium, beta := beta * mscale,
                      pdfFwd := pdfFwd * jacIn }).2.1.pdfFwd = 0
                rw [ihD]
                simp [hf]
        | false =>
            cases found with
            | false =>
                cases mode with
                | Radiance =>
                    simp [randomWalkAux, h1, specZeros, firstFwdZero]
                | Importance =>
                    simp [randomWalkAux, h1, specZeros, firstFwdZero]
            | true =>
                cases hasB with
                | false =>
                    simpa [randomWalkAux, h1] using
                      ih (beta * mscale) pdfFwd bounces prev
                | true =>
                    by_cases h7 : maxDepth ≤ bounces + 1
                    · simp [randomWalkAux, h1, h7, specZeros, firstFwdZero]
                      exact fun hf => Or.inl hf
                    · by_cases h8 : f = 0 ∨ spdf = 0
                      · simp [randomWalkAux, h1, h7, h8, specZeros,
                          firstFwdZero]
                        exact fun hf => Or.inl hf
                      · cases ispec with
                        | true =>
                            obtain ⟨ihA, ihB, ihC, ihD⟩ := ih
                              (beta * mscale * f * cosW / spdf *
                                CorrectShadingNormal mode woNs wiNg woNg wiNs)
                              0 (bounces + 1)
                              { vkind := VertexKind.surface,
                                beta := beta * mscale,
                                pdfFwd := pdfFwd * jacIn, delta := true }
                            simp only [randomWalkAux, h1, h7, h8, if_false,
                              ite_true, ite_false, if_true,
                              Bool.true_eq_false, Bool.false_eq_true]
                            refine ⟨?_, fun hf => ?_,
                              by first | rfl | trivial,
                              by first | rfl | trivial⟩
                            · rw [specZeros_cons]
                              refine ⟨fun _ => ⟨by simp, ihB rfl⟩, ihA⟩
                            · show (randomWalkAux mode maxDepth rest
                                  (beta * mscale * f * cosW / spdf *
                                    CorrectShadingNormal mode woNs wiNg woNg
                                      wiNs)
                                  0 (bounces + 1)
                                  { vkind := VertexKind.surface,
                                    beta := beta * mscale,
                                    pdfFwd := pdfFwd * jacIn,
                                    delta := true }).2.1.pdfFwd = 0
                              rw [ihD]
                              simp [hf]
                        | false =>
                            obtain ⟨ihA, ihB, ihC, ihD⟩ := ih
                              (beta * mscale * f * cosW / spdf *
                                CorrectShadingNormal mode woNs wiNg woNg wiNs)
                              spdf (bounces + 1)
                              { vkind := VertexKind.surface,
                                beta := beta * mscale,
                                pdfFwd := pdfFwd * jacIn }
                            simp only [randomWalkAux, h1, h7, h8, if_false,
                              ite_true, ite_false, if_true,
                              Bool.true_eq_false, Bool.false_eq_true]
                            refine ⟨?_, fun hf => ?_,
                              by first | rfl | trivial,
                              by first | rfl | trivial⟩
                            · rw [specZeros_cons]
                              refine ⟨fun hd => ?_, ihA⟩
                              rw [ihC] at hd
                              simp at hd
                            · show (randomWalkAux mode maxDepth rest
                                  (beta * mscale * f * cosW / spdf *
                                    CorrectShadingNormal mode woNs wiNg woNg
                                      wiNs)
                                  spdf (bounces + 1)
                                  { vkind := VertexKind.surface,
                                    beta := beta * mscale,
                                    pdfFwd := pdfFwd * jacIn }).2.1.pdfFwd = 0
                              rw [ihD]
                              simp [hf]

/-- A concrete three-bounce trace: a diffuse surface scattering, then a
specular one, then another diffuse one (all jacobians 1). -/
def specularTrace : List WalkStep :=
  [{ samplePdf := 1 / 2, bsdfRevPdf := 1 / 3 },
   { samplePdf := 1 / 4, bsdfRevPdf := 1 / 3, isSpecular := true },
   { samplePdf := 1 / 5, bsdfRevPdf := 1 / 7 }]

/-- C3 counterexample: running `RandomWalk` on `specularTrace`, the vertex
reached through the specular scattering event (index 2) is not marked
delta and only its `pdfFwd` is 0, while the delta-marked vertex itself
(index 1, where the specular lobe was sampled) keeps a nonzero `pdfFwd`
and a nonzero `pdfRev` — so no vertex satisfies the claimed conjunction
"marked delta and `pdfFwd = pdfRev = 0`". -/
theorem RandomWalk_specular_cex :
    ((RandomWalk TransportMode.Radiance 5 specularTrace 1 1
        { vkind := VertexKind.camera }).2.2.getD 1 {}).delta = true ∧
    ((RandomWalk TransportMode.Radiance 5 specularTrace 1 1
        { vkind := VertexKind.camera }).2.2.getD 1 {}).pdfFwd = 1 / 2 ∧
    ((RandomWalk TransportMode.Radiance 5 specularTrace 1 1
        { vkind := VertexKind.camera }).2.2.getD 1 {}).pdfRev = 1 / 7 ∧
    ((RandomWalk TransportMode.Radiance 5 specularTrace 1 1
        { vkind := VertexKind.camera }).2.2.getD 2 {}).delta = false ∧
    ((RandomWalk TransportMode.Radiance 5 specularTrace 1 1
        { vkind := VertexKind.camera }).2.2.getD 2 {}).pdfFwd = 0 := by
  norm_num [RandomWalk, randomWalkAux, specularTrace, CorrectShadingNormal,
    List.getD]

/-- C3 (amended): when `RandomWalk` samples a specular lobe it marks the
vertex at which the lobe was sampled as delta, and the zeroed densities
land on its neighbours: for every delta-marked vertex of the returned
subpath, the preceding vertex's `pdfRev` is 0 and the following vertex's
`pdfFwd` (when a following vertex was created) is 0. -/
theorem RandomWalk_specular_zeros (mode : TransportMode) (maxDepth : ℕ)
    (steps : List WalkStep) (beta pdf : ℚ) (prev : Vertex) :
    specZeros (RandomWalk mode maxDepth steps beta pdf prev).2.1
      (RandomWalk mode maxDepth steps beta pdf prev).2.2 = true := by
  unfold RandomWalk
  split
  · rfl
  · exact (randomWalkAux_specZeros mode maxDepth steps beta pdf 0 prev).1

theorem randomWalkAux_count (mode : TransportMode) (maxDepth : ℕ) :
    ∀ (steps : List WalkStep) (beta pdfFwd : ℚ) (bounces : ℕ) (prev : Vertex),
      bounces < maxDepth →
      (randomWalkAux mode maxDepth steps beta pdfFwd bounces prev).1 ≤ maxDepth
      ∧ (randomWalkAux mode maxDepth steps beta pdfFwd bounces prev).2.2.length
          + bounces
        = (randomWalkAux mode maxDepth steps beta pdfFwd bounces prev).1 := by
  intro steps
  induction steps with
  | nil =>
      intro beta pdfFwd bounces prev hb
      exact ⟨le_of_lt hb, by simp [randomWalkAux]⟩
  | cons step rest ih =>
      intro beta pdfFwd bounces prev hb
      obtain ⟨found, mscale, mivalid, phase, hasB, f, spdf, brev, ispec,
        cosW, woNs, wiNg, woNg, wiNs, jacIn, jacRev⟩ := step
      by_cases h1 : beta * mscale = 0
      · simp [randomWalkAux, h1]
        omega
      · cases mivalid with
        | true =>
            by_cases h3 : maxDepth ≤ bounces + 1
            · simp only [randomWalkAux, h1, h3, if_false, ite_true,
                ite_false, if_true, Bool.true_eq_false, Bool.false_eq_true]
              exact ⟨by omega, by simp only [List.length_singleton]; omega⟩
            · obtain ⟨ih1, ih2⟩ := ih (beta * mscale) phase (bounces + 1)
                { vkind := VertexKind.medium, beta := beta * mscale,
                  pdfFwd := pdfFwd * jacIn } (by omega)
              simp only [randomWalkAux, h1, h3, if_false, ite_true,
                ite_false, if_true, Bool.true_eq_false, Bool.false_eq_true]
              refine ⟨ih1, ?_⟩
              simp only [List.length_cons]
              omega
        | false =>
            cases found with
            | false =>
                cases mode with
                | Radiance =>
                    simp only [randomWalkAux, h1, if_false, ite_true,
                      ite_false, if_true, Bool.true_eq_false,
                      Bool.false_eq_true]
                    exact ⟨by omega, by simp only [List.length_singleton]; omega⟩
                | Importance =>
                    simp [randomWalkAux, h1]
                    omega
            | true =>
                cases hasB with
                | false =>
                    simpa [randomWalkAux, h1] using
                      ih (beta * mscale) pdfFwd bounces prev hb
                | true =>
                    by_cases h7 : maxDepth ≤ bounces + 1
                    · simp only [randomWalkAux, h1, h7, if_false, ite_true,
                        ite_false, if_true, Bool.true_eq_false,
                        Bool.false_eq_true]
                      exact ⟨by omega, by simp only [List.length_singleton]; omega⟩
                    · by_cases h8 : f = 0 ∨ spdf = 0
                      · simp only [randomWalkAux, h1, h7, h8, if_false,
                          ite_true, ite_false, if_true, Bool.true_eq_false,
                          Bool.false_eq_true]
                        exact ⟨by omega, by simp only [List.length_singleton]; omega⟩
                      · obtain ⟨ih1, ih2⟩ := ih
                          (beta * mscale * f * cosW / spdf *
                            CorrectShadingNormal mode woNs wiNg woNg wiNs)
                          (if ispec = true then 0 else spdf) (bounces + 1)
                          (if ispec = true then
                            { vkind := VertexKind.surface,
                              beta := beta * mscale,
                              pdfFwd := pdfFwd * jacIn, delta := true }
                          else
                            { vkind := VertexKind.surface,
                              beta := beta * mscale,
                              pdfFwd := pdfFwd * jacIn }) (by omega)
                        simp only [randomWalkAux, h1, h7, h8, if_false,
                          ite_true, ite_false, if_true, Bool.true_eq_false,
                          Bool.false_eq_true]
                        refine ⟨ih1, ?_⟩
                        simp only [List.length_cons]
                        omega

/-- C5: `RandomWalk` returns a bounce count bounded by `maxDepth` and
writes exactly that many vertices into the supplied buffer; with the
depth arguments used by `Render`, the camera subpath fits in
`maxDepth + 2` vertices and the light subpath in `maxDepth + 1`. -/
theorem RandomWalk_bounds (mode : TransportMode) (maxDepth : ℕ)
    (steps steps2 steps3 : List WalkStep) (beta pdf beta2 pdfDir : ℚ)
    (prev camV : Vertex) (inp : LightStartInputs) :
    (RandomWalk mode maxDepth steps beta pdf prev).1 ≤ maxDepth
    ∧ (RandomWalk mode maxDepth steps beta pdf prev).2.2.length
        = (RandomWalk mode maxDepth steps beta pdf prev).1
    ∧ (GenerateCameraSubpath (maxDepth + 2) steps2 camV beta2 pdfDir).1
        ≤ maxDepth + 2
    ∧ (GenerateCameraSubpath (maxDepth + 2) steps2 camV beta2 pdfDir).2.length
        = (GenerateCameraSubpath (maxDepth + 2) steps2 camV beta2 pdfDir).1
    ∧ (GenerateLightSubpath (maxDepth + 1) steps3 inp).1 ≤ maxDepth + 1
    ∧ (GenerateLightSubpath (maxDepth + 1) steps3 inp).2.length
        = (GenerateLightSubpath (maxDepth + 1) steps3 inp).1 := by
  have hwalk : ∀ (md : ℕ) (stp : List WalkStep) (b p : ℚ) (pv : Vertex),
      (RandomWalk mode md stp b p pv).1 ≤ md
      ∧ (RandomWalk mode md stp b p pv).2.2.length
          = (RandomWalk mode md stp b p pv).1 := by
    intro md stp b p pv
    unfold RandomWalk
    split
    · subst_vars
      exact ⟨le_refl 0, rfl⟩
    · rename_i hmd
      obtain ⟨hle, hlen⟩ := randomWalkAux_count mode md stp b p 0 pv
        (by omega)
      exact ⟨hle, by omega⟩
  have hwalkR : ∀ (md : ℕ) (stp : List WalkStep) (b p : ℚ) (pv : Vertex),
      (RandomWalk TransportMode.Radiance md stp b p pv).1 ≤ md
      ∧ (RandomWalk TransportMode.Radiance md stp b p pv).2.2.length
          = (RandomWalk TransportMode.Radiance md stp b p pv).1 := by
    intro md stp b p pv
    unfold RandomWalk
    split
    · subst_vars
      exact ⟨le_refl 0, rfl⟩
    · rename_i hmd
      obtain ⟨hle, hlen⟩ := randomWalkAux_count TransportMode.Radiance md stp
        b p 0 pv (by omega)
      exact ⟨hle, by omega⟩
  have hwalkI : ∀ (md : ℕ) (stp : List WalkStep) (b p : ℚ) (pv : Vertex),
      (RandomWalk TransportMode.Importance md stp b p pv).1 ≤ md
      ∧ (RandomWalk TransportMode.Importance md stp b p pv).2.2.length
          = (RandomWalk TransportMode.Importance md stp b p pv).1 := by
    intro md stp b p pv
    unfold RandomWalk
    split
    · subst_vars
      exact ⟨le_refl 0, rfl⟩
    · rename_i hmd
      obtain ⟨hle, hlen⟩ := randomWalkAux_count TransportMode.Importance md
        stp b p 0 pv (by omega)
      exact ⟨hle, by omega⟩
  have hne2 : ¬(maxDepth + 2 = 0) := by omega
  have hne1 : ¬(maxDepth + 1 = 0) := by omega
  have hcam : (GenerateCameraSubpath (maxDepth + 2) steps2 camV beta2 pdfDir).1
        ≤ maxDepth + 2
      ∧ (GenerateCameraSubpath (maxDepth + 2) steps2 camV beta2
            pdfDir).2.length
        = (GenerateCameraSubpath (maxDepth + 2) steps2 camV beta2 pdfDir).1 := by
    obtain ⟨hle, hlen⟩ := hwalkR (maxDepth + 2 - 1) steps2 beta2 pdfDir camV
    simp only [GenerateCameraSubpath, hne2, if_false, List.length_cons]
    omega
  have hlight : (GenerateLightSubpath (maxDepth + 1) steps3 inp).1
        ≤ maxDepth + 1
      ∧ (GenerateLightSubpath (maxDepth + 1) steps3 inp).2.length
        = (GenerateLightSubpath (maxDepth + 1) steps3 inp).1 := by
    by_cases hguard : inp.pdfPos = 0 ∨ inp.pdfDir = 0 ∨ inp.Le = 0
    · simp [GenerateLightSubpath, hne1, hguard]
    · obtain ⟨hle, hlen⟩ := hwalkI (maxDepth + 1 - 1) steps3
        (inp.Le * inp.absDotNLd / (inp.lightPdf * inp.pdfPos * inp.pdfDir))
        inp.pdfDir inp.lightVertex
      simp only [GenerateLightSubpath, hne1, hguard, if_false,
        List.length_cons]
      constructor
      · omega
      · split
        · rw [fixPath1_length]
          omega
        · omega
  exact ⟨(hwalk maxDepth steps beta pdf prev).1,
    (hwalk maxDepth steps beta pdf prev).2, hcam.1, hcam.2, hlight.1,
    hlight.2⟩

/-- The amount the loop body adds to `L` for the pair `(s,t)`. -/
def strategyAdd (contrib : ℕ → ℕ → ℚ) (maxDepth : ℤ) (t s : ℕ) : ℚ :=
  if (¬((s = 1 ∧ t = 1) ∨ (s : ℤ) + (t : ℤ) - 2 < 0 ∨
        maxDepth < (s : ℤ) + (t : ℤ) - 2)) ∧ t ≠ 1
  then contrib s t else 0

/-- The splat records the loop body emits for the pair `(s,t)`. -/
def strategySplat (contrib : ℕ → ℕ → ℚ) (maxDepth : ℤ) (t s : ℕ) :
    List (ℕ × ℕ × ℚ) :=
  if (¬((s = 1 ∧ t = 1) ∨ (s : ℤ) + (t : ℤ) - 2 < 0 ∨
        maxDepth < (s : ℤ) + (t : ℤ) - 2)) ∧ t = 1
  then [(s, t, contrib s t)] else []

theorem connectBody_eq (contrib : ℕ → ℕ → ℚ) (maxDepth : ℤ) (t : ℕ)
    (acc : ℚ × List (ℕ × ℕ × ℚ)) (s : ℕ) :
    connectBody contrib maxDepth t acc s =
      (acc.1 + strategyAdd contrib maxDepth t s,
       acc.2 ++ strategySplat contrib maxDepth t s) := by
  unfold connectBody strategyAdd strategySplat
  by_cases hskip : (s = 1 ∧ t = 1) ∨ (s : ℤ) + (t : ℤ) - 2 < 0 ∨
      maxDepth < (s : ℤ) + (t : ℤ) - 2
  · rw [if_pos hskip, if_neg (fun h => h.1 hskip),
      if_neg (fun h => h.1 hskip)]
    simp
  · by_cases ht : t = 1
    · rw [if_neg hskip, if_neg (fun hne => hne ht),
        if_neg (fun h => h.2 ht), if_pos ⟨hskip, ht⟩]
      simp
    · rw [if_neg hskip, if_pos ht, if_pos ⟨hskip, ht⟩,
        if_neg (fun h => ht h.2)]
      simp

theorem foldl_accum {α : Type}
    (body : (ℚ × List (ℕ × ℕ × ℚ)) → α → ℚ × List (ℕ × ℕ × ℚ))
    (a : α → ℚ) (b : α → List (ℕ × ℕ × ℚ))
    (h : ∀ acc x, body acc x = (acc.1 + a x, acc.2 ++ b x)) :
    ∀ (L : List α) (acc : ℚ × List (ℕ × ℕ × ℚ)),
      L.foldl body acc = (acc.1 + (L.map a).sum, acc.2 ++ L.bind b) := by
  intro L
  induction L with
  | nil => intro acc; simp
  | cons x xs ihx =>
      intro acc
      rw [List.foldl_cons, h, ihx]
      simp [add_assoc]

theorem connectLoop_eq (contrib : ℕ → ℕ → ℚ) (maxDepth : ℤ)
    (nCamera nLight : ℕ) :
    connectLoop contrib maxDepth nCamera nLight =
      (((tRange nCamera).map
          (fun t => ((sRange nLight).map
            (strategyAdd contrib maxDepth t)).sum)).sum,
       (tRange nCamera).bind
          (fun t => (sRange nLight).bind (strategySplat contrib maxDepth t))) := by
  unfold connectLoop
  rw [foldl_accum _
    (fun t => ((sRange nLight).map (strategyAdd contrib maxDepth t)).sum)
    (fun t => (sRange nLight).bind (strategySplat contrib maxDepth t))
    (fun acc t => foldl_accum _ _ _ (connectBody_eq contrib maxDepth t)
      (sRange nLight) acc)]
  simp

theorem sum_map_ite {α : Type} (L : List α) (q : α → Bool) (f : α → ℚ) :
    (L.map (fun x => if q x = true then f x else 0)).sum =
      ((L.filter q).map f).sum := by
  induction L with
  | nil => rfl
  | cons x xs ih =>
      cases hq : q x <;> simp [List.filter_cons, hq, ih]

theorem bind_ite_singleton {α β : Type} (L : List α) (q : α → Bool)
    (g : α → β) :
    (L.bind (fun x => if q x = true then [g x] else [])) =
      (L.filter q).map g := by
  induction L with
  | nil => rfl
  | cons x xs ih =>
      cases hq : q x <;> simp [List.filter_cons, hq, ih]

theorem filter_bind_eq {α β : Type} (L : List α) (f : α → List β)
    (p : β → Bool) :
    (L.bind f).filter p = L.bind fun x => (f x).filter p := by
  induction L with
  | nil => rfl
  | cons x xs ih => simp [List.cons_bind, List.filter_append, ih]

theorem map_bind_eq {α β γ : Type} (L : List α) (f : α → List β) (g : β → γ) :
    (L.bind f).map g = L.bind fun x => (f x).map g := by
  induction L with
  | nil => rfl
  | cons x xs ih => simp [List.cons_bind, ih]

theorem sum_map_bind {α β : Type} (L : List α) (f : α → List β) (g : β → ℚ) :
    ((L.bind f).map g).sum = (L.map fun x => ((f x).map g).sum).sum := by
  induction L with
  | nil => rfl
  | cons x xs ih => simp [List.cons_bind, ih]

theorem filter_map_const {α β : Type} (L : List α) (f : α → β) (p : β → Bool)
    (b : Bool) (h : ∀ x, p (f x) = b) :
    (L.map f).filter p = if b = true then L.map f else [] := by
  induction L with
  | nil => cases b <;> rfl
  | cons x xs ih =>
      cases hb : b <;>
        simp_all [List.filter_cons]

theorem strategyAdd_eq_ite (contrib : ℕ → ℕ → ℚ) (maxDepth : ℤ) (t : ℕ)
    (ht : t ≠ 1) (s : ℕ) :
    strategyAdd contrib maxDepth t s =
      if executedB maxDepth s t = true then contrib s t else 0 := by
  unfold strategyAdd executedB
  by_cases hP : (s = 1 ∧ t = 1) ∨ (s : ℤ) + (t : ℤ) - 2 < 0 ∨
      maxDepth < (s : ℤ) + (t : ℤ) - 2
  · rw [if_neg (fun h => h.1 hP),
      if_neg (fun h => (of_decide_eq_true h) hP)]
  · rw [if_pos ⟨hP, ht⟩, if_pos (decide_eq_true hP)]

theorem strategySplat_eq_ite (contrib : ℕ → ℕ → ℚ) (maxDepth : ℤ) (s : ℕ) :
    strategySplat contrib maxDepth 1 s =
      if executedB maxDepth s 1 = true then [(s, 1, contrib s 1)] else [] := by
  unfold strategySplat executedB
  by_cases hP : (s = 1 ∧ (1 : ℕ) = 1) ∨ (s : ℤ) + ((1 : ℕ) : ℤ) - 2 < 0 ∨
      maxDepth < (s : ℤ) + ((1 : ℕ) : ℤ) - 2
  · rw [if_neg (fun h => h.1 hP),
      if_neg (fun h => (of_decide_eq_true h) hP)]
  · rw [if_pos ⟨hP, rfl⟩, if_pos (decide_eq_true hP)]

theorem strategySplat_of_ne (contrib : ℕ → ℕ → ℚ) (maxDepth : ℤ) (t : ℕ)
    (ht : t ≠ 1) (s : ℕ) : strategySplat contrib maxDepth t s = [] :=
  if_neg (fun h => ht h.2)

theorem bind_congr_fun {α β : Type} (L : List α) (f g : α → List β)
    (h : ∀ x, f x = g x) : L.bind f = L.bind g := by
  rw [funext h]

/-- C6: the per-sample strategy loop executes a connection exactly for
the pairs `(s,t)` with `1 ≤ t ≤ nCamera`, `0 ≤ s ≤ nLight`,
`0 ≤ s + t - 2 ≤ maxDepth`, `(s,t) ≠ (1,1)`; each executed pair's
contribution is added to the accumulated radiance `L` when `t ≠ 1` and is
emitted as a film splat when `t = 1`. -/
theorem connectLoop_spec (contrib : ℕ → ℕ → ℚ) (maxDepth : ℤ)
    (nCamera nLight : ℕ) :
    (connectLoop contrib maxDepth nCamera nLight).1 =
        (((executedPairs maxDepth nCamera nLight).filter
            (fun p => p.2 != 1)).map (fun p => contrib p.1 p.2)).sum
    ∧ (connectLoop contrib maxDepth nCamera nLight).2 =
        ((executedPairs maxDepth nCamera nLight).filter
            (fun p => p.2 == 1)).map (fun p => (p.1, p.2, contrib p.1 p.2))
    ∧ ∀ s t : ℕ, ((s, t) ∈ executedPairs maxDepth nCamera nLight ↔
        (1 ≤ t ∧ t ≤ nCamera ∧ s ≤ nLight ∧ 2 ≤ s + t ∧
          (s : ℤ) + (t : ℤ) - 2 ≤ maxDepth ∧ ¬(s = 1 ∧ t = 1))) := by
  refine ⟨?_, ?_, ?_⟩
  · rw [connectLoop_eq, executedPairs, filter_bind_eq, sum_map_bind]
    refine congrArg List.sum (List.map_congr_left ?_)
    intro t _
    rw [filter_map_const
      ((sRange nLight).filter fun s => executedB maxDepth s t)
      (fun s => (s, t)) (fun p => p.2 != 1) (t != 1) (fun s => rfl)]
    by_cases ht : t = 1
    · subst ht
      have h0 : ∀ s ∈ sRange nLight,
          strategyAdd contrib maxDepth 1 s = 0 :=
        fun s _ => if_neg (fun h => h.2 rfl)
      rw [List.map_congr_left h0]
      simp
    · have hb : (t != 1) = true := by simp [ht]
      rw [hb, if_pos rfl]
      have he : ∀ s ∈ sRange nLight, strategyAdd contrib maxDepth t s =
          (fun s => if executedB maxDepth s t = true then contrib s t
            else 0) s :=
        fun s _ => strategyAdd_eq_ite contrib maxDepth t ht s
      rw [List.map_congr_left he, sum_map_ite, List.map_map]
      rfl
  · rw [connectLoop_eq, executedPairs, filter_bind_eq, map_bind_eq]
    refine bind_congr_fun _ _ _ ?_
    intro t
    rw [filter_map_const
      ((sRange nLight).filter fun s => executedB maxDepth s t)
      (fun s => (s, t)) (fun p => p.2 == 1) (t == 1) (fun s => rfl)]
    by_cases ht : t = 1
    · subst ht
      rw [bind_congr_fun _ _ _ (strategySplat_eq_ite contrib maxDepth),
        bind_ite_singleton]
      simp [List.map_map, Function.comp]
    · have hb : (t == 1) = false := by simp [ht]
      rw [hb]
      rw [bind_congr_fun _ _ _ (strategySplat_of_ne contrib maxDepth t ht)]
      simp
  · intro s t
    simp only [executedPairs, List.mem_bind, List.mem_map, List.mem_filter,
      tRange, sRange, List.mem_range, executedB, decide_eq_true_eq,
      Prod.mk.injEq]
    constructor
    · rintro ⟨t', ⟨k, hk, rfl⟩, s', ⟨⟨hs', hcond⟩, hs, ht⟩⟩
      subst hs
      subst ht
      refine ⟨by omega, by omega, by omega, ?_, ?_, ?_⟩ <;> omega
    · rintro ⟨ht1, htn, hsn, hst, hd, hne⟩
      refine ⟨t, ⟨t - 1, by omega, by omega⟩, s, ⟨⟨by omega, by omega⟩,
        rfl, rfl⟩⟩
